import Mathlib

/-!
Verification of the command-line argument layer of thriftgo (`args.go`):
the `Arguments` configuration model, the repeatable-flag accumulator
`StringSlice`, the output-path resolver `Output`, the logging-policy
derivation `MakeLogFunc`, the compact-specification resolvers
`UsedPlugins` / `Targets`, the `Parse` entry point, and the help-text
column alignment `align`.
-/

namespace Thriftgo

/-- `StringSlice` implements the flag value interface on string slices
to allow a flag to be set multiple times (`type StringSlice []string`). -/
abbrev StringSlice := List String

/-- `func (ss *StringSlice) Set(value string) error`: appends `value` to the
slice and returns `nil` (no error).  The returned `Option String` is the Go
`error` result: `none` is the `nil` error. -/
def StringSlice.Set (ss : StringSlice) (value : String) : StringSlice × Option String :=
  (ss ++ [value], none)

/-- `Arguments` contains command line arguments for thriftgo. -/
structure Arguments where
  AskVersion : Bool := false
  Recursive : Bool := false
  Verbose : Bool := false
  Quiet : Bool := false
  OutputPath : String := ""
  Includes : StringSlice := ([] : List String)
  Plugins : StringSlice := ([] : List String)
  Langs : StringSlice := ([] : List String)
  IDL : String := ""
deriving DecidableEq, Repr, Inhabited

/-- `func (a *Arguments) Output(lang string) string`: returns an output path
for generated codes for the target language. -/
def Arguments.Output (a : Arguments) (lang : String) : String :=
  if 0 < a.OutputPath.length then a.OutputPath
  else "./gen-" ++ lang

/-- Modelled from the spec: `plugin.Desc`, the descriptor produced by the
external compact-specification parser `plugin.ParseCompactArguments`
(defined outside this file); it carries a name and an ordered option list. -/
structure Desc where
  Name : String
  Options : List (String × String)
deriving DecidableEq, Repr

/-- Modelled from the spec: `generator.LangSpec`, the target-language
specification consumed by the generator (defined outside this file). -/
structure LangSpec where
  Language : String
  Options : List (String × String)
deriving DecidableEq, Repr

/-- `func (a *Arguments) UsedPlugins() ([]*plugin.Desc, error)`.
The external parser `plugin.ParseCompactArguments` is passed in as `p`;
a Go `(nil, err)` result is `Except.error e` (no partial list is ever
carried by an error). -/
def Arguments.UsedPlugins (p : String → Except String Desc) (a : Arguments) :
    Except String (List Desc) :=
  go p a.Plugins
where
  /-- The loop `for _, str := range a.Plugins`. -/
  go (p : String → Except String Desc) : List String → Except String (List Desc)
    | [] => .ok []
    | str :: rest =>
      match p str with
      | .error e => .error e
      | .ok desc =>
        match go p rest with
        | .error e => .error e
        | .ok descs => .ok (desc :: descs)

/-- `func (a *Arguments) Targets() ([]*generator.LangSpec, error)`. -/
def Arguments.Targets (p : String → Except String Desc) (a : Arguments) :
    Except String (List LangSpec) :=
  go p a.Langs
where
  /-- The loop `for _, lang := range a.Langs`. -/
  go (p : String → Except String Desc) : List String → Except String (List LangSpec)
    | [] => .ok []
    | lang :: rest =>
      match p lang with
      | .error e => .error e
      | .ok desc =>
        match go p rest with
        | .error e => .error e
        | .ok specs => .ok ({ Language := desc.Name, Options := desc.Options } :: specs)

/-- Instrumented version of the `UsedPlugins` loop: additionally returns the
list of strings actually handed to the external parser, in invocation order. -/
def usedPluginsCalls (p : String → Except String Desc) :
    List String → Except String (List Desc) × List String
  | [] => (.ok [], [])
  | str :: rest =>
    match p str with
    | .error e => (.error e, [str])
    | .ok desc =>
      match usedPluginsCalls p rest with
      | (.error e, calls) => (.error e, str :: calls)
      | (.ok descs, calls) => (.ok (desc :: descs), str :: calls)

/-- Instrumented version of the `Targets` loop: additionally returns the
list of strings actually handed to the external parser, in invocation order. -/
def targetsCalls (p : String → Except String Desc) :
    List String → Except String (List LangSpec) × List String
  | [] => (.ok [], [])
  | lang :: rest =>
    match p lang with
    | .error e => (.error e, [lang])
    | .ok desc =>
      match targetsCalls p rest with
      | (.error e, calls) => (.error e, lang :: calls)
      | (.ok specs, calls) =>
        (.ok ({ Language := desc.Name, Options := desc.Options } :: specs), lang :: calls)

/-- The log emitters built by `MakeLogFunc` (`backend.LogFunc`).  An emitter
is modelled as the list of lines it writes to the diagnostic stream for a
given message; a no-op emitter writes no lines. -/
structure LogFunc where
  Info : String → List String
  Warn : String → List String
  MultiWarn : List String → List String

/-- `func (a *Arguments) MakeLogFunc() backend.LogFunc`: creates logging
functions according to command line flags.  An active logger created by
`log.New(os.Stderr, tag, 0)` writes one line per message, the line being the
fixed tag followed by the message. -/
def Arguments.MakeLogFunc (a : Arguments) : LogFunc :=
  { Info :=
      if a.Verbose && !a.Quiet then fun v => ["[INFO] " ++ v]
      else fun _ => []
    Warn :=
      if !a.Quiet then fun v => ["[WARN] " ++ v]
      else fun _ => []
    MultiWarn :=
      if !a.Quiet then fun ws => ws.map (fun w => "[WARN] " ++ w)
      else fun _ => [] }

/-- Modelled from the spec: the fixed version string (`Version`), defined
elsewhere in the package; `Parse` only ever prints it verbatim. -/
def Version : String := "0.1.2"

/-- The observable outcome of `Arguments.Parse`: a runtime panic (slice index
out of range), a process termination `os.Exit(code)` after printing `msg`,
or normal return with the updated `Arguments`. -/
inductive ParseOutcome where
  | panic : ParseOutcome
  | exit (code : Nat) (msg : String) : ParseOutcome
  | ok (a : Arguments) : ParseOutcome
deriving DecidableEq, Repr

/-- The body of `Parse` after `argv[1:]` has been taken: `f.Parse` together
with the flag storage is abstracted as `fp`, which on success yields the
populated `Arguments` and the remaining non-flag tokens `f.Args()`. -/
def parseRest (fp : List String → Except String (Arguments × List String))
    (args : List String) : ParseOutcome :=
  match fp args with
  | .error err => .exit 2 err
  | .ok (a, rest) =>
    if a.AskVersion then .exit 0 ("thriftgo " ++ Version)
    else if rest.length ≠ 1 then
      .exit 2 ("require exactly 1 argument for the IDL parameter, got: "
        ++ toString rest.length)
    else
      match rest.head? with
      | some idl => .ok { a with IDL := idl }
      | none => .panic

/-- `func (a *Arguments) Parse(argv []string)`: slices off the program name
(`argv[1:]`, a panic when `argv` is empty) and runs the rest of the body. -/
def parse (fp : List String → Except String (Arguments × List String))
    (argv : List String) : ParseOutcome :=
  match argv with
  | [] => .panic
  | _ :: args => parseRest fp args

/-- Modelled from the spec: `plugin.Option`, a backend help-text option
(defined outside this file) with a name and a description. -/
structure PluginOption where
  Name : List Char
  Desc : List Char
deriving DecidableEq, Repr

/-- A run of `n` space characters (`strings.Repeat(" ", n)`).  Help rows are
modelled as character lists so that column offsets are literal positions. -/
def spaces (n : Nat) : List Char :=
  List.replicate n ' '

/-- The running-maximum loop of `align`: `max` starts at `0` and is replaced
whenever `max <= len(opt.Name)`. -/
def maxNameLen (opts : List PluginOption) : Nat :=
  opts.foldl (fun m o => if m ≤ o.Name.length then o.Name.length else m) 0

/-- One row emitted by `align`:
`fmt.Sprintf("    %s:%s%s", name, strings.Repeat(" ", 2+max-len(name)), desc)`. -/
def alignRow (m : Nat) (name desc : List Char) : List Char :=
  spaces 4 ++ name ++ [':'] ++ spaces (2 + m - name.length) ++ desc

/-- `func align(opts []plugin.Option) string`: aligns the help strings for
plugin options; the rows are joined with newlines by `strings.Join(ss, "\n")`. -/
def align (opts : List PluginOption) : List (List Char) :=
  opts.map (fun o => alignRow (maxNameLen opts) o.Name o.Desc)

deriving instance DecidableEq for Except

/-- A concrete compact-specification parser used to instantiate theorems:
it fails on the string `"bad"` and succeeds elsewhere. -/
def pEx : String → Except String Desc :=
  fun s => if s = "bad" then .error "boom" else .ok ⟨s, []⟩

/-- The descriptor `pEx` yields on success. -/
def dEx : String → Desc :=
  fun s => ⟨s, []⟩

/-- A concrete flag-parsing outcome used to instantiate theorems about
`parse`: flag parsing always succeeds with default flags, leaving every
token as a non-flag token. -/
def fpEx : List String → Except String (Arguments × List String) :=
  fun ts => .ok ({}, ts)

/-- A concrete flag-parsing outcome where the version flag was set. -/
def fpVerEx : List String → Except String (Arguments × List String) :=
  fun ts => .ok ({ AskVersion := true }, ts)

/-- A concrete backend option list with names `"a"` and `"bb"`. -/
def optsEx : List PluginOption :=
  [⟨['a'], ['d', '1']⟩, ⟨['b', 'b'], ['d', '2']⟩]

section Lemmas

lemma length_pos_of_ne_empty (s : String) (h : s ≠ "") : 0 < s.length := by
  cases s with
  | mk data =>
    cases data with
    | nil => exact absurd rfl h
    | cons c cs => simp [String.length]

lemma foldl_set_append (vs : List String) (init : StringSlice) :
    vs.foldl (fun ss v => (StringSlice.Set ss v).1) init = init ++ vs := by
  induction vs generalizing init with
  | nil => simp
  | cons v vs ih =>
    rw [List.foldl_cons, ih]
    simp [StringSlice.Set]

end Lemmas

/-- C3: `Output(language)` returns `OutputPath` verbatim whenever it is
non-empty, independent of the language argument, and returns
`"./gen-" ++ language` whenever `OutputPath` is empty; `Output` is a pure
function of the configuration and the language. -/
theorem output_spec (a : Arguments) (lang : String) :
    (a.OutputPath ≠ "" → a.Output lang = a.OutputPath) ∧
    (a.OutputPath = "" → a.Output lang = "./gen-" ++ lang) := by
  constructor
  · intro h
    simp [Arguments.Output, length_pos_of_ne_empty _ h]
  · intro h
    simp [Arguments.Output, h]

/-- Witness for `output_spec` at concrete configurations. -/
theorem output_spec_witness :
    ({ OutputPath := "out" : Arguments }).Output "go" = "out" ∧
    ({ OutputPath := "out" : Arguments }).Output "rust" = "out" ∧
    ({} : Arguments).Output "go" = "./gen-go" ∧
    ({} : Arguments).Output "rust" = "./gen-rust" :=
  ⟨(output_spec { OutputPath := "out" } "go").1 (by decide),
   (output_spec { OutputPath := "out" } "rust").1 (by decide),
   (output_spec {} "go").2 rfl,
   (output_spec {} "rust").2 rfl⟩

/-- C6: the accumulator's `Set` appends each value to the end and always
returns a `nil` error, so feeding any value sequence in command-line order
yields exactly that sequence, duplicates and order preserved
(e.g. `-i a -i b -i a` gives `["a", "b", "a"]`). -/
theorem stringSlice_set_spec (vs : List String) :
    (vs.foldl (fun ss v => (StringSlice.Set ss v).1) [] = vs) ∧
    (∀ (ss : StringSlice) (v : String), (StringSlice.Set ss v).1 = ss ++ [v]) ∧
    (∀ (ss : StringSlice) (v : String), (StringSlice.Set ss v).2 = none) ∧
    (["a", "b", "a"].foldl (fun ss v => (StringSlice.Set ss v).1) [] = ["a", "b", "a"]) := by
  refine ⟨by simpa using foldl_set_append vs [], fun ss v => rfl, fun ss v => rfl, ?_⟩
  simpa using foldl_set_append ["a", "b", "a"] []

/-- C4: `MakeLogFunc` yields an Info emitter active exactly when `Verbose`
holds and `Quiet` does not, and Warn / multi-Warn emitters active exactly
when `Quiet` does not hold; `Quiet` makes every emitter a no-op regardless
of `Verbose`, and active emitters tag each line with `"[INFO] "` or
`"[WARN] "`. -/
theorem makeLogFunc_spec (a : Arguments) (msg : String) (ws : List String) :
    (a.MakeLogFunc.Info msg = if a.Verbose && !a.Quiet then ["[INFO] " ++ msg] else []) ∧
    (a.MakeLogFunc.Warn msg = if !a.Quiet then ["[WARN] " ++ msg] else []) ∧
    (a.MakeLogFunc.MultiWarn ws =
      if !a.Quiet then ws.map (fun w => "[WARN] " ++ w) else []) ∧
    (a.Quiet = true →
      a.MakeLogFunc.Info msg = [] ∧ a.MakeLogFunc.Warn msg = [] ∧
      a.MakeLogFunc.MultiWarn ws = []) := by
  refine ⟨?_, ?_, ?_, ?_⟩
  · cases hv : a.Verbose <;> cases hq : a.Quiet <;>
      simp [Arguments.MakeLogFunc, hv, hq]
  · cases hq : a.Quiet <;> simp [Arguments.MakeLogFunc, hq]
  · cases hq : a.Quiet <;> simp [Arguments.MakeLogFunc, hq]
  · intro hq
    cases hv : a.Verbose <;> simp [Arguments.MakeLogFunc, hv, hq]

/-- Witness for `makeLogFunc_spec`: with `Verbose` and `Quiet` both set,
every emitter is a no-op. -/
theorem makeLogFunc_spec_witness :
    ({ Verbose := true, Quiet := true } : Arguments).MakeLogFunc.Info "m" = [] ∧
    ({ Verbose := true, Quiet := true } : Arguments).MakeLogFunc.Warn "m" = [] ∧
    ({ Verbose := true, Quiet := true } : Arguments).MakeLogFunc.MultiWarn ["w"] = [] :=
  (makeLogFunc_spec { Verbose := true, Quiet := true } "m" ["w"]).2.2.2 rfl

/-- C8: the batched multi-Warn emitter, when `Quiet` is unset, emits one
tagged line per message in the sequence's order; when `Quiet` is set it
produces no output at all. -/
theorem multiWarn_spec (a : Arguments) (ws : List String) :
    (a.Quiet = false →
      a.MakeLogFunc.MultiWarn ws = ws.map (fun w => "[WARN] " ++ w)) ∧
    (a.Quiet = true → a.MakeLogFunc.MultiWarn ws = []) := by
  constructor
  · intro hq
    cases hv : a.Verbose <;> simp [Arguments.MakeLogFunc, hq]
  · intro hq
    cases hv : a.Verbose <;> simp [Arguments.MakeLogFunc, hq]

/-- Witness for `multiWarn_spec` at a concrete configuration and sequence. -/
theorem multiWarn_spec_witness :
    ({} : Arguments).MakeLogFunc.MultiWarn ["w1", "w2"] = ["[WARN] w1", "[WARN] w2"] ∧
    ({ Quiet := true } : Arguments).MakeLogFunc.MultiWarn ["w1", "w2"] = [] :=
  ⟨(multiWarn_spec {} ["w1", "w2"]).1 rfl,
   (multiWarn_spec { Quiet := true } ["w1", "w2"]).2 rfl⟩

section ResolverLemmas

variable (p : String → Except String Desc) (d : String → Desc)

lemma usedPluginsCalls_ok (l : List String) (h : ∀ s ∈ l, p s = .ok (d s)) :
    usedPluginsCalls p l = (.ok (l.map d), l) := by
  induction l with
  | nil => rfl
  | cons s rest ih =>
    have hs : p s = .ok (d s) := h s (List.mem_cons_self s rest)
    have hrest := ih (fun x hx => h x (List.mem_cons_of_mem s hx))
    simp [usedPluginsCalls, hs, hrest]

lemma usedPluginsCalls_err (pre post : List String) (bad e : String)
    (hpre : ∀ s ∈ pre, p s = .ok (d s)) (hbad : p bad = .error e) :
    usedPluginsCalls p (pre ++ bad :: post) = (.error e, pre ++ [bad]) := by
  induction pre with
  | nil => simp [usedPluginsCalls, hbad]
  | cons s rest ih =>
    have hs : p s = .ok (d s) := hpre s (List.mem_cons_self s rest)
    have hrest := ih (fun x hx => hpre x (List.mem_cons_of_mem s hx))
    simp [usedPluginsCalls, hs, hrest]

lemma usedPlugins_go_fst (l : List String) :
    Arguments.UsedPlugins.go p l = (usedPluginsCalls p l).1 := by
  induction l with
  | nil => rfl
  | cons s rest ih =>
    cases hs : p s with
    | error e => simp [Arguments.UsedPlugins.go, usedPluginsCalls, hs]
    | ok desc =>
      cases hr : usedPluginsCalls p rest with
      | mk r calls =>
        cases r with
        | error e =>
          simp [Arguments.UsedPlugins.go, usedPluginsCalls, hs, hr, ih, hr]
        | ok descs =>
          simp [Arguments.UsedPlugins.go, usedPluginsCalls, hs, hr, ih, hr]

lemma targetsCalls_ok (l : List String) (h : ∀ s ∈ l, p s = .ok (d s)) :
    targetsCalls p l =
      (.ok (l.map fun s => { Language := (d s).Name, Options := (d s).Options }), l) := by
  induction l with
  | nil => rfl
  | cons s rest ih =>
    have hs : p s = .ok (d s) := h s (List.mem_cons_self s rest)
    have hrest := ih (fun x hx => h x (List.mem_cons_of_mem s hx))
    simp [targetsCalls, hs, hrest]

lemma targetsCalls_err (pre post : List String) (bad e : String)
    (hpre : ∀ s ∈ pre, p s = .ok (d s)) (hbad : p bad = .error e) :
    targetsCalls p (pre ++ bad :: post) = (.error e, pre ++ [bad]) := by
  induction pre with
  | nil => simp [targetsCalls, hbad]
  | cons s rest ih =>
    have hs : p s = .ok (d s) := hpre s (List.mem_cons_self s rest)
    have hrest := ih (fun x hx => hpre x (List.mem_cons_of_mem s hx))
    simp [targetsCalls, hs, hrest]

lemma targets_go_fst (l : List String) :
    Arguments.Targets.go p l = (targetsCalls p l).1 := by
  induction l with
  | nil => rfl
  | cons s rest ih =>
    cases hs : p s with
    | error e => simp [Arguments.Targets.go, targetsCalls, hs]
    | ok desc =>
      cases hr : targetsCalls p rest with
      | mk r calls =>
        cases r with
        | error e => simp [Arguments.Targets.go, targetsCalls, hs, hr, ih, hr]
        | ok specs => simp [Arguments.Targets.go, targetsCalls, hs, hr, ih, hr]

end ResolverLemmas

/-- C2: `UsedPlugins` (resp. `Targets`) hands each entry of `Plugins`
(resp. `Langs`) to the external parser `p` once, in order; under uniform
success it returns all descriptors in original order, and when the first
failure occurs it returns that failure with no list (never a partial
prefix) and parses no entry beyond the failing one. -/
theorem resolver_spec (p : String → Except String Desc) (d : String → Desc)
    (a : Arguments) (pre post : List String) (bad e : String) :
    ((∀ s ∈ a.Plugins, p s = .ok (d s)) →
      a.UsedPlugins p = .ok (a.Plugins.map d) ∧
      (usedPluginsCalls p a.Plugins).2 = a.Plugins) ∧
    ((∀ s ∈ a.Langs, p s = .ok (d s)) →
      a.Targets p =
        .ok (a.Langs.map fun s => { Language := (d s).Name, Options := (d s).Options }) ∧
      (targetsCalls p a.Langs).2 = a.Langs) ∧
    ((∀ s ∈ pre, p s = .ok (d s)) → p bad = .error e →
      ({ Plugins := pre ++ bad :: post } : Arguments).UsedPlugins p = .error e ∧
      usedPluginsCalls p (pre ++ bad :: post) = (.error e, pre ++ [bad])) ∧
    ((∀ s ∈ pre, p s = .ok (d s)) → p bad = .error e →
      ({ Langs := pre ++ bad :: post } : Arguments).Targets p = .error e ∧
      targetsCalls p (pre ++ bad :: post) = (.error e, pre ++ [bad])) := by
  refine ⟨?_, ?_, ?_, ?_⟩
  · intro h
    have hc := usedPluginsCalls_ok p d a.Plugins h
    refine ⟨?_, by rw [hc]⟩
    show Arguments.UsedPlugins.go p a.Plugins = _
    rw [usedPlugins_go_fst, hc]
  · intro h
    have hc := targetsCalls_ok p d a.Langs h
    refine ⟨?_, by rw [hc]⟩
    show Arguments.Targets.go p a.Langs = _
    rw [targets_go_fst, hc]
  · intro hpre hbad
    have hc := usedPluginsCalls_err p d pre post bad e hpre hbad
    refine ⟨?_, hc⟩
    show Arguments.UsedPlugins.go p (pre ++ bad :: post) = _
    rw [usedPlugins_go_fst, hc]
  · intro hpre hbad
    have hc := targetsCalls_err p d pre post bad e hpre hbad
    refine ⟨?_, hc⟩
    show Arguments.Targets.go p (pre ++ bad :: post) = _
    rw [targets_go_fst, hc]

/-- Witness for `resolver_spec` with the concrete parser `pEx`: the run
`-p p1 -p bad -p p3` fails with no list, having parsed only `p1` and
`bad`, while a uniformly good run returns everything in order. -/
theorem resolver_spec_witness :
    ({ Plugins := ["p1", "p2"] } : Arguments).UsedPlugins pEx =
      .ok [⟨"p1", []⟩, ⟨"p2", []⟩] ∧
    ({ Plugins := ["p1", "bad", "p3"] } : Arguments).UsedPlugins pEx = .error "boom" ∧
    usedPluginsCalls pEx ["p1", "bad", "p3"] = (.error "boom", ["p1", "bad"]) ∧
    ({ Langs := ["go", "bad", "rust"] } : Arguments).Targets pEx = .error "boom" ∧
    targetsCalls pEx ["go", "bad", "rust"] = (.error "boom", ["go", "bad"]) := by
  have h1 := (resolver_spec pEx dEx { Plugins := ["p1", "p2"] } [] [] "x" "e").1
    (by decide)
  have h2 := (resolver_spec pEx dEx {} ["p1"] ["p3"] "bad" "boom").2.2.1
    (by decide) rfl
  have h3 := (resolver_spec pEx dEx {} ["go"] ["rust"] "bad" "boom").2.2.2
    (by decide) rfl
  exact ⟨h1.1, h2.1, h2.2, h3.1, h3.2⟩

/-- C9: with an empty `Plugins` (resp. `Langs`) sequence, `UsedPlugins`
(resp. `Targets`) returns an empty descriptor list and no error, and the
external parser is never invoked (the call list is empty). -/
theorem resolver_empty_spec (p : String → Except String Desc) (a : Arguments) :
    (a.Plugins = [] →
      a.UsedPlugins p = .ok [] ∧ usedPluginsCalls p a.Plugins = (.ok [], [])) ∧
    (a.Langs = [] →
      a.Targets p = .ok [] ∧ targetsCalls p a.Langs = (.ok [], [])) := by
  constructor
  · intro h
    refine ⟨?_, by rw [h]; rfl⟩
    show Arguments.UsedPlugins.go p a.Plugins = _
    rw [h]; rfl
  · intro h
    refine ⟨?_, by rw [h]; rfl⟩
    show Arguments.Targets.go p a.Langs = _
    rw [h]; rfl

/-- Witness for `resolver_empty_spec` at the default configuration. -/
theorem resolver_empty_spec_witness :
    ({} : Arguments).UsedPlugins pEx = .ok [] ∧
    usedPluginsCalls pEx ([] : List String) = (.ok [], []) ∧
    ({} : Arguments).Targets pEx = .ok [] ∧
    targetsCalls pEx ([] : List String) = (.ok [], []) := by
  have h := resolver_empty_spec pEx {}
  exact ⟨(h.1 rfl).1, (h.1 rfl).2, (h.2 rfl).1, (h.2 rfl).2⟩

/-- C1: when flag parsing succeeds and the version flag is unset, `Parse`
succeeds and stores the sole remaining non-flag token in `IDL` when exactly
one remains, and otherwise terminates with exit status 2, printing the
exact count of remaining tokens. -/
theorem parse_positional_spec
    (fp : List String → Except String (Arguments × List String))
    (prog : String) (args : List String) (a : Arguments) (rest : List String)
    (hfp : fp args = .ok (a, rest)) (hv : a.AskVersion = false) :
    (∀ idl, rest = [idl] → parse fp (prog :: args) = .ok { a with IDL := idl }) ∧
    (rest.length ≠ 1 → parse fp (prog :: args) =
      .exit 2 ("require exactly 1 argument for the IDL parameter, got: "
        ++ toString rest.length)) := by
  constructor
  · rintro idl rfl
    simp [parse, parseRest, hfp, hv]
  · intro hlen
    simp [parse, parseRest, hfp, hv, hlen]

/-- Witness for `parse_positional_spec` with the concrete flag outcome
`fpEx`: one positional token succeeds and sets `IDL`; zero or two
positional tokens exit with status 2 reporting the count. -/
theorem parse_positional_spec_witness :
    parse fpEx ["thriftgo", "x.thrift"] = .ok { IDL := "x.thrift" } ∧
    parse fpEx ["thriftgo"] =
      .exit 2 "require exactly 1 argument for the IDL parameter, got: 0" ∧
    parse fpEx ["thriftgo", "a.thrift", "b.thrift"] =
      .exit 2 "require exactly 1 argument for the IDL parameter, got: 2" := by
  refine ⟨?_, ?_, ?_⟩
  · exact (parse_positional_spec fpEx "thriftgo" ["x.thrift"] {} ["x.thrift"]
      rfl rfl).1 "x.thrift" rfl
  · exact (parse_positional_spec fpEx "thriftgo" [] {} [] rfl rfl).2 (by decide)
  · exact (parse_positional_spec fpEx "thriftgo" ["a.thrift", "b.thrift"] {}
      ["a.thrift", "b.thrift"] rfl rfl).2 (by decide)

/-- C5: when the version flag was set, `Parse` prints the fixed version
string and terminates with exit status 0 right after flag parsing,
regardless of how many non-flag tokens remain. -/
theorem parse_version_spec
    (fp : List String → Except String (Arguments × List String))
    (prog : String) (args : List String) (a : Arguments) (rest : List String)
    (hfp : fp args = .ok (a, rest)) (hv : a.AskVersion = true) :
    parse fp (prog :: args) = .exit 0 ("thriftgo " ++ Version) := by
  simp [parse, parseRest, hfp, hv]

/-- Witness for `parse_version_spec`: a version query with zero positional
arguments exits with status 0, not 2. -/
theorem parse_version_spec_witness :
    parse fpVerEx ["thriftgo"] = .exit 0 ("thriftgo " ++ Version) :=
  parse_version_spec fpVerEx "thriftgo" [] { AskVersion := true } [] rfl rfl

/-- C10: `Parse` discards exactly the first element of the argument vector
and parses the remainder; on an empty vector the `argv[1:]` slice panics,
and under the non-empty precondition no indexing in `Parse` can fail. -/
theorem parse_argv_spec
    (fp : List String → Except String (Arguments × List String))
    (argv : List String) :
    (parse fp [] = .panic) ∧
    (∀ x args, parse fp (x :: args) = parseRest fp args) ∧
    (argv ≠ [] → parse fp argv ≠ .panic) := by
  refine ⟨rfl, fun x args => rfl, ?_⟩
  intro hne
  cases argv with
  | nil => exact absurd rfl hne
  | cons x args =>
    show parseRest fp args ≠ .panic
    unfold parseRest
    cases hfp : fp args with
    | error e => simp
    | ok pr =>
      obtain ⟨a, rest⟩ := pr
      cases hv : a.AskVersion with
      | true => simp [hv]
      | false =>
        by_cases hlen : rest.length = 1
        · cases rest with
          | nil => simp at hlen
          | cons r rs =>
            have hrs : rs = [] := by simpa using hlen
            subst hrs
            simp [hv]
        · simp [hlen, hv]

/-- Witness for `parse_argv_spec` on a concrete non-empty argument vector. -/
theorem parse_argv_spec_witness :
    parse fpEx ([] : List String) = .panic ∧
    parse fpEx ["thriftgo"] = parseRest fpEx [] ∧
    parse fpEx ["thriftgo"] ≠ .panic := by
  have h := parse_argv_spec fpEx ["thriftgo"]
  exact ⟨h.1, h.2.1 "thriftgo" [], h.2.2 (by decide)⟩

section AlignLemmas

lemma le_maxNameLen_foldl (l : List PluginOption) (acc : Nat) :
    acc ≤ l.foldl (fun m o => if m ≤ o.Name.length then o.Name.length else m) acc ∧
    ∀ o ∈ l,
      o.Name.length ≤ l.foldl (fun m o => if m ≤ o.Name.length then o.Name.length else m) acc := by
  induction l generalizing acc with
  | nil => simp
  | cons o t ih =>
    have sa : acc ≤ (if acc ≤ o.Name.length then o.Name.length else acc) := by
      split <;> omega
    have so : o.Name.length ≤ (if acc ≤ o.Name.length then o.Name.length else acc) := by
      split <;> omega
    obtain ⟨h1, h2⟩ := ih (if acc ≤ o.Name.length then o.Name.length else acc)
    refine ⟨le_trans sa h1, ?_⟩
    intro x hx
    rcases List.mem_cons.mp hx with rfl | hx
    · exact le_trans so h1
    · exact h2 x hx

lemma name_le_maxNameLen (opts : List PluginOption) (o : PluginOption)
    (ho : o ∈ opts) : o.Name.length ≤ maxNameLen opts :=
  (le_maxNameLen_foldl opts 0).2 o ho

lemma alignRow_length (m : Nat) (name desc : List Char) (h : name.length ≤ m) :
    (alignRow m name desc).length = 4 + m + 3 + desc.length := by
  simp [alignRow, spaces]
  omega

lemma alignRow_drop (m : Nat) (name desc : List Char) (h : name.length ≤ m) :
    (alignRow m name desc).drop (4 + m + 3) = desc := by
  have hlen : (spaces 4 ++ name ++ [':'] ++ spaces (2 + m - name.length)).length
      = 4 + m + 3 := by
    simp [spaces]
    omega
  have heq : alignRow m name desc =
      (spaces 4 ++ name ++ [':'] ++ spaces (2 + m - name.length)) ++ desc := by
    simp [alignRow, List.append_assoc]
  rw [heq, List.drop_left' hlen]

end AlignLemmas

/-- C7 counterexample: with options named `"a"` and `"bb"` (maximum name
length 2), the description columns do not begin at character offset
`4 + 2 + 2 = 8`: dropping 8 characters from each row does not yield the
descriptions (they in fact begin at offset 9, because the colon after the
name occupies one column). -/
theorem align_claimed_offset_counterexample :
    maxNameLen optsEx = 2 ∧
    ¬ ((align optsEx).map (fun r => r.drop (4 + 2 + 2)) =
        optsEx.map (fun o => o.Desc)) := by
  decide

/-- C7 (amended): every rendered help row's description column begins at the
fixed character offset `4 + (maximum option-name length) + 3` from the line
start — the name column is 4 spaces, the name, a colon, and
`2 + max - len(name)` padding spaces — regardless of the option's own name
length; no row is omitted, and an empty description leaves the right column
blank (the row ends at the offset). -/
theorem align_offset_spec (opts : List PluginOption) (o : PluginOption)
    (ho : o ∈ opts) :
    (align opts).length = opts.length ∧
    alignRow (maxNameLen opts) o.Name o.Desc ∈ align opts ∧
    (alignRow (maxNameLen opts) o.Name o.Desc).length =
      4 + maxNameLen opts + 3 + o.Desc.length ∧
    (alignRow (maxNameLen opts) o.Name o.Desc).drop (4 + maxNameLen opts + 3)
      = o.Desc := by
  have hle := name_le_maxNameLen opts o ho
  exact ⟨by simp [align], List.mem_map_of_mem _ ho,
    alignRow_length _ _ _ hle, alignRow_drop _ _ _ hle⟩

/-- Witness for `align_offset_spec` on the two-option list with names
`"a"` and `"bb"`: both description columns begin at offset `4 + 2 + 3 = 9`. -/
theorem align_offset_spec_witness :
    (align optsEx).length = 2 ∧
    (alignRow (maxNameLen optsEx) ['a'] ['d', '1']).drop (4 + maxNameLen optsEx + 3)
      = ['d', '1'] ∧
    (alignRow (maxNameLen optsEx) ['b', 'b'] ['d', '2']).drop (4 + maxNameLen optsEx + 3)
      = ['d', '2'] := by
  have h1 := align_offset_spec optsEx ⟨['a'], ['d', '1']⟩ (by decide)
  have h2 := align_offset_spec optsEx ⟨['b', 'b'], ['d', '2']⟩ (by decide)
  exact ⟨h1.1, h1.2.2.2, h2.2.2.2⟩

end Thriftgo
